import Mathlib

/-!
Verification of the telegram-chatexports-datasetify pipeline (`src/main.py`,
`src/data_models.py`).

The program turns a Telegram chat export into (question, answer) text pairs:
it sorts the messages by timestamp, filters out non-text messages, locates the
target speaker's messages ("anchors", sender id `"user" + str(chat.id)`),
builds for every anchor a bounded backward context window (time-decay cutoff
measured from the anchor, a single permitted turn switch, global consumed-set),
and finally flattens each window into a question/answer pair.

Everything below is a shallow embedding of that code: `Message` / `Chat`
mirror the pydantic models restricted to the fields the pipeline reads
(`int(date_unixtime)` is embedded as the parsed integer), and each Python
function is translated into a Lean function of the same name.  Python's
`sorted` (a stable sort by the timestamp key) is embedded as Mathlib's stable
`List.insertionSort`; the `while` loop of `recurse_messsages` becomes the
fuel-indexed tail recursion `contextLoop` (the fuel `M` is an upper bound on
the number of iterations, since every non-breaking iteration grows the
context whose size is capped by `M`).
-/

namespace Datasetify

/-- One entry of `text_entities` (class `MessageEntity` in `data_models.py`);
only `type` and `text` exist in the source model. -/
structure MessageEntity where
  type : String
  text : String
deriving DecidableEq, Inhabited

/-- The fields of the pydantic `Message` model that `main.py` reads.
`date_unixtime` is a decimal string in the export; the code always reads it
through `int(...)`, so it is embedded as the parsed integer. -/
structure Message where
  id : Int
  from_id : Option String
  date_unixtime : Int
  text_entities : List MessageEntity
  media_type : Option String
  photo : Option String
deriving DecidableEq, Inhabited

/-- The pydantic `Chat` model restricted to the fields `main.py` reads. -/
structure Chat where
  id : Int
  messages : List Message
deriving DecidableEq, Inhabited

/-- `TTL_SECONDS = 60 * 60 * 12` in `main.py`. -/
def TTL_SECONDS : Int := 60 * 60 * 12

/-- `MAX_CONTEXT_MESSAGE = 10` in `main.py`. -/
def MAX_CONTEXT_MESSAGE : Nat := 10

/-- `get_sorted_messages`: `sorted(chat.messages, key=lambda x: int(x.date_unixtime))`.
Python's `sorted` is a stable sort by the key, embedded as the stable
`List.insertionSort` with the corresponding total preorder. -/
def get_sorted_messages (chat : Chat) : List Message :=
  chat.messages.insertionSort (fun a b => a.date_unixtime ≤ b.date_unixtime)

/-- `get_text_messages`: keeps messages with `media_type is None`,
`photo is None` and `text_entities != []`, preserving order. -/
def get_text_messages (chat : Chat) : List Message :=
  chat.messages.filter fun m =>
    decide (m.media_type = none ∧ m.photo = none ∧ m.text_entities ≠ [])

/-- `get_index_of_model_chat`:
`[i for i, message in enumerate(chat.messages) if message.from_id == "user" + str(chat.id)]`. -/
def get_index_of_model_chat (chat : Chat) : List Nat :=
  (List.range chat.messages.length).filter fun i =>
    decide ((chat.messages.getD i default).from_id = some ("user" ++ toString chat.id))

/-- The `while len(context) < MAX_CONTEXT_MESSAGE` loop of `recurse_messsages`,
generalized over the size bound `M` and the decay threshold `T`.  State:
`context` (the window so far), `consumed` (the consumed id list),
`cur` (the Python variable `message`, i.e. the most recently appended
message), the cursor `i`, and the `is_turned` flag.  `idx ≤ i` is Python's
`next_idx <= 0` for `next_idx = idx - i`.  The fuel only forces termination;
`recurse_aux` passes fuel `M`, which the loop can never exhaust because each
recursive call grows `context` below the size cap `M`. -/
def contextLoop (msgs : List Message) (M : Nat) (T : Int) (aTime : Int) (idx : Nat) :
    Nat → List Message → List Int → Message → Nat → Bool → List Message × List Int
  | 0, context, consumed, _, _, _ => (context, consumed)
  | fuel + 1, context, consumed, cur, i, turned =>
    if context.length < M then
      if idx ≤ i then (context, consumed)
      else
        let next := msgs.getD (idx - i) default
        if T < aTime - next.date_unixtime then (context, consumed)
        else if next.from_id = cur.from_id then
          contextLoop msgs M T aTime idx fuel (context ++ [next]) (consumed ++ [next.id])
            next (i + 1) turned
        else if turned then (context, consumed)
        else
          contextLoop msgs M T aTime idx fuel (context ++ [next]) (consumed ++ [next.id])
            next (i + 1) true
    else (context, consumed)

/-- The `for idx in reversed(model_index)` loop of `recurse_messsages`:
takes the anchor positions already reversed (descending) and threads the
consumed id list; a consumed anchor is skipped and yields no window. -/
def recurse_aux (msgs : List Message) (M : Nat) (T : Int) :
    List Nat → List Int → List (List Message)
  | [], _ => []
  | idx :: rest, consumed =>
    let message := msgs.getD idx default
    if message.id ∈ consumed then
      recurse_aux msgs M T rest consumed
    else
      let r := contextLoop msgs M T message.date_unixtime idx M
        [message] (consumed ++ [message.id]) message 1 false
      r.1 :: recurse_aux msgs M T rest r.2

/-- `recurse_messsages` generalized over the size bound `M` and decay
threshold `T`: windows in emission order (anchors visited in reverse). -/
def buildContexts (msgs : List Message) (M : Nat) (T : Int) (model_index : List Nat) :
    List (List Message) :=
  recurse_aux msgs M T model_index.reverse []

/-- `recurse_messsages` with the source constants, collected into a list
(the async generator yields one context per non-skipped anchor). -/
def recurse_messsages (chat : Chat) (model_index : List Nat) : List (List Message) :=
  buildContexts chat.messages MAX_CONTEXT_MESSAGE TTL_SECONDS model_index

/-- `get_textized_text_entities`:
`"\n".join([text_entity.text for text_entity in message.text_entities])`. -/
def get_textized_text_entities (message : Message) : String :=
  String.intercalate "\n" (message.text_entities.map MessageEntity.text)

/-- `merge_context`: for each context, the question is the concatenation of
the texts of the messages whose `from_id` differs from `"user" + str(chat.id)`
(in stored window order) and the answer that of the matching ones. -/
def merge_context (chat : Chat) (contexts : List (List Message)) :
    List (String × String) :=
  let model_id := "user" ++ toString chat.id
  contexts.map fun context =>
    (String.join ((context.filter fun m => decide (¬ m.from_id = some model_id)).map
        get_textized_text_entities),
     String.join ((context.filter fun m => decide (m.from_id = some model_id)).map
        get_textized_text_entities))

/-- The pure part of `main` generalized over `M` and `T`: sort, then filter,
then locate anchors, build the windows, reverse them
(`contexts = reversed([...])`), and merge into pairs. -/
def pipelineMT (M : Nat) (T : Int) (chat : Chat) : List (String × String) :=
  let chat1 : Chat := { chat with messages := get_sorted_messages chat }
  let chat2 : Chat := { chat1 with messages := get_text_messages chat1 }
  let model_index := get_index_of_model_chat chat2
  merge_context chat2 (buildContexts chat2.messages M T model_index).reverse

/-- The pure part of `main` with the source constants. -/
def main_pipeline (chat : Chat) : List (String × String) :=
  pipelineMT MAX_CONTEXT_MESSAGE TTL_SECONDS chat

/-- The contiguous backward segment of messages that `contextLoop` appends:
starting from cursor value `i`, `t` consecutive predecessors
`msgs[idx - i], msgs[idx - i - 1], ...` of the anchor position `idx`. -/
def seg (msgs : List Message) (idx i t : Nat) : List Message :=
  (List.range t).map fun j => msgs.getD (idx - (i + j)) default

/-- Message 1 of the spec's literal scenario: (1,"user42",1000,"hi"). -/
def mC2_1 : Message :=
  { id := 1, from_id := some "user42", date_unixtime := 1000
    text_entities := [{ type := "plain", text := "hi" }]
    media_type := none, photo := none }

/-- Message 2 of the spec's literal scenario: (2,"peer",1002,"hello"). -/
def mC2_2 : Message :=
  { id := 2, from_id := some "peer", date_unixtime := 1002
    text_entities := [{ type := "plain", text := "hello" }]
    media_type := none, photo := none }

/-- Message 3 of the spec's literal scenario: (3,"peer",1003,"how are you"). -/
def mC2_3 : Message :=
  { id := 3, from_id := some "peer", date_unixtime := 1003
    text_entities := [{ type := "plain", text := "how are you" }]
    media_type := none, photo := none }

/-- Message 4 of the spec's literal scenario: (4,"user42",1005,"good"). -/
def mC2_4 : Message :=
  { id := 4, from_id := some "user42", date_unixtime := 1005
    text_entities := [{ type := "plain", text := "good" }]
    media_type := none, photo := none }

/-- The literal scenario of the spec: conversation id 42, target tag
`"user42"`. -/
def chatC2 : Chat :=
  { id := 42
    messages := [mC2_1, mC2_2, mC2_3, mC2_4] }

/-- A chat whose messages arrive out of timestamp order and include a
photo message, exercising both the Chronological Sorter and the Message
Filter. -/
def chatC6 : Chat :=
  { id := 5
    messages :=
      [ { id := 1, from_id := some "peer", date_unixtime := 300
          text_entities := [{ type := "plain", text := "late" }]
          media_type := none, photo := none }
      , { id := 2, from_id := some "user5", date_unixtime := 100
          text_entities := [{ type := "plain", text := "pic" }]
          media_type := none, photo := some "photos/p.jpg" }
      , { id := 3, from_id := some "user5", date_unixtime := 200
          text_entities := [{ type := "plain", text := "early" }]
          media_type := none, photo := none } ] }

/-- A conversation with a third speaker: position 3 is an anchor of the
target speaker `"user7"`, position 2 the counterpart, and position 1 a
message of a sender seen in neither role of the window grown from
position 3. -/
def msgsC8 : List Message :=
  [ { id := 10, from_id := some "pad", date_unixtime := 0
      text_entities := [{ type := "plain", text := "pad" }]
      media_type := none, photo := none }
  , { id := 1, from_id := some "third", date_unixtime := 1001
      text_entities := [{ type := "plain", text := "intruder" }]
      media_type := none, photo := none }
  , { id := 2, from_id := some "peer", date_unixtime := 1002
      text_entities := [{ type := "plain", text := "q" }]
      media_type := none, photo := none }
  , { id := 3, from_id := some "user7", date_unixtime := 1003
      text_entities := [{ type := "plain", text := "a" }]
      media_type := none, photo := none } ]

/-! ### Shape of one backward scan

`contextLoop` only ever appends the contiguous predecessors
`msgs[idx - i], msgs[idx - i - 1], ...` to both the window and the consumed
list, and only at positions strictly greater than `0` whose time gap from
the anchor is within `T`. -/

lemma seg_succ (msgs : List Message) (idx i t : Nat) :
    seg msgs idx i (t + 1) = msgs.getD (idx - i) default :: seg msgs idx (i + 1) t := by
  simp only [seg, List.range_succ_eq_map, List.map_cons, List.map_map, Nat.add_zero]
  congr 1
  apply List.map_congr_left
  intro j _
  simp only [Function.comp_apply]
  congr 1
  omega

lemma mem_seg {msgs : List Message} {idx i t : Nat} {m : Message} :
    m ∈ seg msgs idx i t ↔ ∃ j, j < t ∧ m = msgs.getD (idx - (i + j)) default := by
  simp only [seg, List.mem_map, List.mem_range]
  constructor
  · rintro ⟨j, hj, rfl⟩
    exact ⟨j, hj, rfl⟩
  · rintro ⟨j, hj, rfl⟩
    exact ⟨j, hj, rfl⟩

lemma contextLoop_zero (msgs : List Message) (M : Nat) (T aTime : Int) (idx : Nat)
    (context : List Message) (consumed : List Int) (cur : Message) (i : Nat) (turned : Bool) :
    contextLoop msgs M T aTime idx 0 context consumed cur i turned = (context, consumed) :=
  rfl

/-- One unfolding of the loop body, stated so that the scrutinees can be
rewritten with `if_pos` / `if_neg`. -/
lemma contextLoop_succ (msgs : List Message) (M : Nat) (T aTime : Int) (idx : Nat)
    (fuel : Nat) (context : List Message) (consumed : List Int) (cur : Message)
    (i : Nat) (turned : Bool) :
    contextLoop msgs M T aTime idx (fuel + 1) context consumed cur i turned
      = if context.length < M then
          if idx ≤ i then (context, consumed)
          else
            if T < aTime - (msgs.getD (idx - i) default).date_unixtime then
              (context, consumed)
            else if (msgs.getD (idx - i) default).from_id = cur.from_id then
              contextLoop msgs M T aTime idx fuel
                (context ++ [msgs.getD (idx - i) default])
                (consumed ++ [(msgs.getD (idx - i) default).id])
                (msgs.getD (idx - i) default) (i + 1) turned
            else if turned then (context, consumed)
            else
              contextLoop msgs M T aTime idx fuel
                (context ++ [msgs.getD (idx - i) default])
                (consumed ++ [(msgs.getD (idx - i) default).id])
                (msgs.getD (idx - i) default) (i + 1) true
        else (context, consumed) :=
  rfl

lemma contextLoop_spec (msgs : List Message) (M : Nat) (T aTime : Int) (idx : Nat)
    (fuel : Nat) :
    ∀ (context : List Message) (consumed : List Int) (cur : Message) (i : Nat) (turned : Bool),
      ∃ t : Nat,
        (contextLoop msgs M T aTime idx fuel context consumed cur i turned).1
            = context ++ seg msgs idx i t ∧
        (contextLoop msgs M T aTime idx fuel context consumed cur i turned).2
            = consumed ++ (seg msgs idx i t).map Message.id ∧
        (∀ j, j < t → i + j < idx) ∧
        (∀ j, j < t → aTime - (msgs.getD (idx - (i + j)) default).date_unixtime ≤ T) := by
  induction fuel with
  | zero =>
    intro context consumed cur i turned
    exact ⟨0, by simp [contextLoop_zero, seg], by simp [contextLoop_zero, seg],
      by omega, by intro j hj; omega⟩
  | succ fuel ih =>
    intro context consumed cur i turned
    by_cases hM : context.length < M
    · by_cases hidx : idx ≤ i
      · refine ⟨0, ?_, ?_, by omega, by intro j hj; omega⟩ <;>
          rw [contextLoop_succ, if_pos hM, if_pos hidx] <;> simp [seg]
      · by_cases hT : T < aTime - (msgs.getD (idx - i) default).date_unixtime
        · refine ⟨0, ?_, ?_, by omega, by intro j hj; omega⟩ <;>
            rw [contextLoop_succ, if_pos hM, if_neg hidx, if_pos hT] <;> simp [seg]
        · by_cases hsame :
              (msgs.getD (idx - i) default).from_id = cur.from_id
          · obtain ⟨t, h1, h2, h3, h4⟩ :=
              ih (context ++ [msgs.getD (idx - i) default])
                (consumed ++ [(msgs.getD (idx - i) default).id])
                (msgs.getD (idx - i) default) (i + 1) turned
            have hstep :
                contextLoop msgs M T aTime idx (fuel + 1) context consumed cur i turned
                  = contextLoop msgs M T aTime idx fuel
                      (context ++ [msgs.getD (idx - i) default])
                      (consumed ++ [(msgs.getD (idx - i) default).id])
                      (msgs.getD (idx - i) default) (i + 1) turned := by
              rw [contextLoop_succ, if_pos hM, if_neg hidx, if_neg hT, if_pos hsame]
            refine ⟨t + 1, ?_, ?_, ?_, ?_⟩
            · rw [hstep, h1, seg_succ, List.append_assoc]
              rfl
            · rw [hstep, h2, seg_succ, List.map_cons, List.append_assoc]
              rfl
            · intro j hj
              cases j with
              | zero => omega
              | succ j' => have := h3 j' (by omega); omega
            · intro j hj
              cases j with
              | zero => simpa using not_lt.mp hT
              | succ j' =>
                have := h4 j' (by omega)
                have heq : i + (j' + 1) = (i + 1) + j' := by omega
                rw [heq]
                exact this
          · by_cases hturn : turned = true
            · refine ⟨0, ?_, ?_, by omega, by intro j hj; omega⟩ <;>
                rw [contextLoop_succ, if_pos hM, if_neg hidx, if_neg hT, if_neg hsame,
                  hturn, if_pos rfl] <;> simp [seg]
            · have hturn' : turned = false := by cases turned <;> simp_all
              obtain ⟨t, h1, h2, h3, h4⟩ :=
                ih (context ++ [msgs.getD (idx - i) default])
                  (consumed ++ [(msgs.getD (idx - i) default).id])
                  (msgs.getD (idx - i) default) (i + 1) true
              have hstep :
                  contextLoop msgs M T aTime idx (fuel + 1) context consumed cur i turned
                    = contextLoop msgs M T aTime idx fuel
                        (context ++ [msgs.getD (idx - i) default])
                        (consumed ++ [(msgs.getD (idx - i) default).id])
                        (msgs.getD (idx - i) default) (i + 1) true := by
                rw [contextLoop_succ, if_pos hM, if_neg hidx, if_neg hT, if_neg hsame,
                  hturn']
                simp
              refine ⟨t + 1, ?_, ?_, ?_, ?_⟩
              · rw [hstep, h1, seg_succ, List.append_assoc]
                rfl
              · rw [hstep, h2, seg_succ, List.map_cons, List.append_assoc]
                rfl
              · intro j hj
                cases j with
                | zero => omega
                | succ j' => have := h3 j' (by omega); omega
              · intro j hj
                cases j with
                | zero => simpa using not_lt.mp hT
                | succ j' =>
                  have := h4 j' (by omega)
                  have heq : i + (j' + 1) = (i + 1) + j' := by omega
                  rw [heq]
                  exact this
    · refine ⟨0, ?_, ?_, by omega, by intro j hj; omega⟩ <;>
        rw [contextLoop_succ, if_neg hM] <;> simp [seg]

/-! ### Shape of the anchor loop -/

lemma recurse_aux_nil (msgs : List Message) (M : Nat) (T : Int) (consumed : List Int) :
    recurse_aux msgs M T [] consumed = [] :=
  rfl

lemma recurse_aux_cons (msgs : List Message) (M : Nat) (T : Int) (idx : Nat)
    (rest : List Nat) (consumed : List Int) :
    recurse_aux msgs M T (idx :: rest) consumed
      = if (msgs.getD idx default).id ∈ consumed then
          recurse_aux msgs M T rest consumed
        else
          (contextLoop msgs M T (msgs.getD idx default).date_unixtime idx M
              [msgs.getD idx default] (consumed ++ [(msgs.getD idx default).id])
              (msgs.getD idx default) 1 false).1
            :: recurse_aux msgs M T rest
                (contextLoop msgs M T (msgs.getD idx default).date_unixtime idx M
                  [msgs.getD idx default] (consumed ++ [(msgs.getD idx default).id])
                  (msgs.getD idx default) 1 false).2 :=
  rfl

/-- Every emitted window is the context built by one backward scan started
at an anchor position of the processed list, from the initial state of
`recurse_messsages`: window `[anchor]`, current speaker the anchor, no turn
switch yet, cursor `1`. -/
lemma mem_recurse_aux (msgs : List Message) (M : Nat) (T : Int) (anchors : List Nat) :
    ∀ (consumed : List Int) (w : List Message),
      w ∈ recurse_aux msgs M T anchors consumed →
      ∃ idx consumed2, idx ∈ anchors ∧
        w = (contextLoop msgs M T (msgs.getD idx default).date_unixtime idx M
              [msgs.getD idx default] consumed2 (msgs.getD idx default) 1 false).1 := by
  induction anchors with
  | nil =>
    intro consumed w hw
    simp [recurse_aux_nil] at hw
  | cons idx rest ih =>
    intro consumed w hw
    rw [recurse_aux_cons] at hw
    by_cases hskip : (msgs.getD idx default).id ∈ consumed
    · rw [if_pos hskip] at hw
      obtain ⟨idx', c2, h1, h2⟩ := ih consumed w hw
      exact ⟨idx', c2, List.mem_cons_of_mem _ h1, h2⟩
    · rw [if_neg hskip] at hw
      rcases List.mem_cons.mp hw with h | h
      · exact ⟨idx, consumed ++ [(msgs.getD idx default).id], List.mem_cons_self _ _, h⟩
      · obtain ⟨idx', c2, h1, h2⟩ := ih _ w h
        exact ⟨idx', c2, List.mem_cons_of_mem _ h1, h2⟩

/-! ### Size bound of one scan -/

lemma contextLoop_length (msgs : List Message) (M : Nat) (T aTime : Int) (idx : Nat)
    (fuel : Nat) :
    ∀ (context : List Message) (consumed : List Int) (cur : Message) (i : Nat) (turned : Bool),
      (contextLoop msgs M T aTime idx fuel context consumed cur i turned).1.length
        ≤ max context.length M := by
  induction fuel with
  | zero =>
    intro context consumed cur i turned
    rw [contextLoop_zero]
    exact le_max_left _ _
  | succ fuel ih =>
    intro context consumed cur i turned
    by_cases hM : context.length < M
    · by_cases hidx : idx ≤ i
      · rw [contextLoop_succ, if_pos hM, if_pos hidx]
        exact le_max_left _ _
      · by_cases hT : T < aTime - (msgs.getD (idx - i) default).date_unixtime
        · rw [contextLoop_succ, if_pos hM, if_neg hidx, if_pos hT]
          exact le_max_left _ _
        · by_cases hsame : (msgs.getD (idx - i) default).from_id = cur.from_id
          · rw [contextLoop_succ, if_pos hM, if_neg hidx, if_neg hT, if_pos hsame]
            calc (contextLoop msgs M T aTime idx fuel
                    (context ++ [msgs.getD (idx - i) default])
                    (consumed ++ [(msgs.getD (idx - i) default).id])
                    (msgs.getD (idx - i) default) (i + 1) turned).1.length
                ≤ max (context ++ [msgs.getD (idx - i) default]).length M := ih _ _ _ _ _
              _ = max (context.length + 1) M := by simp
              _ = M := Nat.max_eq_right (Nat.succ_le_of_lt hM)
              _ ≤ max context.length M := Nat.le_max_right _ _
          · by_cases hturn : turned = true
            · rw [contextLoop_succ, if_pos hM, if_neg hidx, if_neg hT, if_neg hsame,
                hturn, if_pos rfl]
              exact le_max_left _ _
            · have hturn' : turned = false := by cases turned <;> simp_all
              rw [contextLoop_succ, if_pos hM, if_neg hidx, if_neg hT, if_neg hsame, hturn']
              simp only [Bool.false_eq_true, if_false]
              calc (contextLoop msgs M T aTime idx fuel
                      (context ++ [msgs.getD (idx - i) default])
                      (consumed ++ [(msgs.getD (idx - i) default).id])
                      (msgs.getD (idx - i) default) (i + 1) true).1.length
                  ≤ max (context ++ [msgs.getD (idx - i) default]).length M := ih _ _ _ _ _
                _ = max (context.length + 1) M := by simp
                _ = M := Nat.max_eq_right (Nat.succ_le_of_lt hM)
                _ ≤ max context.length M := Nat.le_max_right _ _
    · rw [contextLoop_succ, if_neg hM]
      exact le_max_left _ _

/-! ### Sender count of one scan -/

lemma senders_seed (context : List Message) (cur : Message) (turned : Bool)
    (hfalse : turned = false → ∀ m ∈ context, m.from_id = cur.from_id)
    (htrue : turned = true → ∃ s, ∀ m ∈ context, m.from_id = cur.from_id ∨ m.from_id = s) :
    ∃ s₁ s₂, ∀ m ∈ context, m.from_id = s₁ ∨ m.from_id = s₂ := by
  cases turned with
  | false => exact ⟨cur.from_id, cur.from_id, fun m hm => Or.inl (hfalse rfl m hm)⟩
  | true =>
    obtain ⟨s, hs⟩ := htrue rfl
    exact ⟨cur.from_id, s, hs⟩

lemma contextLoop_two_senders (msgs : List Message) (M : Nat) (T aTime : Int) (idx : Nat)
    (fuel : Nat) :
    ∀ (context : List Message) (consumed : List Int) (cur : Message) (i : Nat) (turned : Bool),
      (turned = false → ∀ m ∈ context, m.from_id = cur.from_id) →
      (turned = true → ∃ s, ∀ m ∈ context, m.from_id = cur.from_id ∨ m.from_id = s) →
      ∃ s₁ s₂, ∀ m ∈ (contextLoop msgs M T aTime idx fuel context consumed cur i turned).1,
        m.from_id = s₁ ∨ m.from_id = s₂ := by
  induction fuel with
  | zero =>
    intro context consumed cur i turned hfalse htrue
    rw [contextLoop_zero]
    exact senders_seed context cur turned hfalse htrue
  | succ fuel ih =>
    intro context consumed cur i turned hfalse htrue
    by_cases hM : context.length < M
    · by_cases hidx : idx ≤ i
      · rw [contextLoop_succ, if_pos hM, if_pos hidx]
        exact senders_seed context cur turned hfalse htrue
      · by_cases hT : T < aTime - (msgs.getD (idx - i) default).date_unixtime
        · rw [contextLoop_succ, if_pos hM, if_neg hidx, if_pos hT]
          exact senders_seed context cur turned hfalse htrue
        · by_cases hsame : (msgs.getD (idx - i) default).from_id = cur.from_id
          · rw [contextLoop_succ, if_pos hM, if_neg hidx, if_neg hT, if_pos hsame]
            apply ih
            · intro ht m hm
              rcases List.mem_append.mp hm with h | h
              · exact (hfalse ht m h).trans hsame.symm
              · rw [List.mem_singleton.mp h]
            · intro ht
              obtain ⟨s, hs⟩ := htrue ht
              refine ⟨s, fun m hm => ?_⟩
              rcases List.mem_append.mp hm with h | h
              · rcases hs m h with h' | h'
                · exact Or.inl (h'.trans hsame.symm)
                · exact Or.inr h'
              · rw [List.mem_singleton.mp h]
                exact Or.inl rfl
          · by_cases hturn : turned = true
            · rw [contextLoop_succ, if_pos hM, if_neg hidx, if_neg hT, if_neg hsame,
                hturn, if_pos rfl]
              exact senders_seed context cur turned hfalse htrue
            · have hturn' : turned = false := by cases turned <;> simp_all
              rw [contextLoop_succ, if_pos hM, if_neg hidx, if_neg hT, if_neg hsame, hturn']
              simp only [Bool.false_eq_true, if_false]
              apply ih
              · intro ht
                exact absurd ht (by simp)
              · intro _
                refine ⟨cur.from_id, fun m hm => ?_⟩
                rcases List.mem_append.mp hm with h | h
                · exact Or.inr (hfalse hturn' m h)
                · rw [List.mem_singleton.mp h]
                  exact Or.inl rfl
    · rw [contextLoop_succ, if_neg hM]
      exact senders_seed context cur turned hfalse htrue

/-! ### Partition property

Windows are contiguous index intervals ending at their anchor; anchors are
processed in descending order, so everything already consumed lies at
positions at or above the bottom of the most recently emitted window.  The
invariant threaded through `recurse_aux`: every position below `B` is still
unconsumed, and every remaining anchor is consumed or lies below `B`. -/

lemma getD_id_inj (msgs : List Message) (hids : (msgs.map Message.id).Nodup)
    {p q : Nat} (hp : p < msgs.length) (hq : q < msgs.length)
    (h : (msgs.getD p default).id = (msgs.getD q default).id) : p = q := by
  have hp' : p < (msgs.map Message.id).length := by simpa using hp
  have hq' : q < (msgs.map Message.id).length := by simpa using hq
  rw [List.getD_eq_getElem msgs default hp, List.getD_eq_getElem msgs default hq] at h
  have he : (msgs.map Message.id)[p] = (msgs.map Message.id)[q] := by
    simpa using h
  exact (List.Nodup.getElem_inj_iff hids).mp he

/-- Every member of a window sits at a position in the interval
`[idx - t, idx]`. -/
lemma window_mem_pos (msgs : List Message) (idx t : Nat) :
    ∀ m ∈ msgs.getD idx default :: seg msgs idx 1 t,
      ∃ p, idx - t ≤ p ∧ p ≤ idx ∧ m = msgs.getD p default := by
  intro m hm
  rcases List.mem_cons.mp hm with h | h
  · exact ⟨idx, by omega, le_refl _, h⟩
  · obtain ⟨j, hj, rfl⟩ := mem_seg.mp h
    exact ⟨idx - (1 + j), by omega, by omega, rfl⟩

/-- Conversely the window covers every position of the interval
`[idx - t, idx]`. -/
lemma window_pos_mem (msgs : List Message) (idx t : Nat) :
    ∀ p, idx - t ≤ p → p ≤ idx →
      msgs.getD p default ∈ msgs.getD idx default :: seg msgs idx 1 t := by
  intro p h1 h2
  rcases eq_or_lt_of_le h2 with rfl | hlt
  · exact List.mem_cons_self _ _
  · apply List.mem_cons_of_mem
    apply mem_seg.mpr
    refine ⟨idx - 1 - p, by omega, ?_⟩
    congr 1
    omega

lemma recurse_aux_partition (msgs : List Message) (M : Nat) (T : Int)
    (hids : (msgs.map Message.id).Nodup) :
    ∀ (anchors : List Nat) (consumed : List Int) (B : Nat),
      anchors.Pairwise (fun a b => b < a) →
      (∀ a ∈ anchors, a < msgs.length) →
      (∀ a ∈ anchors, (msgs.getD a default).id ∈ consumed ∨ a < B) →
      (∀ p, p < B → p < msgs.length → (msgs.getD p default).id ∉ consumed) →
      (∀ w ∈ recurse_aux msgs M T anchors consumed, ∀ m ∈ w, m.id ∉ consumed) ∧
      (recurse_aux msgs M T anchors consumed).Pairwise
        (fun w₁ w₂ => ∀ m₁ ∈ w₁, ∀ m₂ ∈ w₂, m₁.id ≠ m₂.id) := by
  intro anchors
  induction anchors with
  | nil =>
    intro consumed B _ _ _ _
    simp [recurse_aux_nil]
  | cons idx rest ih =>
    intro consumed B hdesc hbound hremain hfresh
    have hidxlen : idx < msgs.length := hbound idx (List.mem_cons_self _ _)
    have hdesc_rest : ∀ a ∈ rest, a < idx :=
      fun a ha => (List.pairwise_cons.mp hdesc).1 a ha
    have hdesc' := (List.pairwise_cons.mp hdesc).2
    by_cases hskip : (msgs.getD idx default).id ∈ consumed
    · rw [recurse_aux_cons, if_pos hskip]
      exact ih consumed B hdesc' (fun a ha => hbound a (List.mem_cons_of_mem _ ha))
        (fun a ha => hremain a (List.mem_cons_of_mem _ ha)) hfresh
    · rw [recurse_aux_cons, if_neg hskip]
      have hidxB : idx < B := by
        rcases hremain idx (List.mem_cons_self _ _) with h | h
        · exact absurd h hskip
        · exact h
      obtain ⟨t, h1, h2, h3, h4⟩ :=
        contextLoop_spec msgs M T (msgs.getD idx default).date_unixtime idx M
          [msgs.getD idx default] (consumed ++ [(msgs.getD idx default).id])
          (msgs.getD idx default) 1 false
      set r := contextLoop msgs M T (msgs.getD idx default).date_unixtime idx M
        [msgs.getD idx default] (consumed ++ [(msgs.getD idx default).id])
        (msgs.getD idx default) 1 false with hr
      rw [List.singleton_append] at h1
      have hc : r.2 = consumed ++ r.1.map Message.id := by
        rw [h1, h2, List.map_cons]
        simp
      have hWfresh : ∀ m ∈ r.1, m.id ∉ consumed := by
        intro m hm
        rw [h1] at hm
        obtain ⟨p, _, hp2, rfl⟩ := window_mem_pos msgs idx t m hm
        exact hfresh p (lt_of_le_of_lt hp2 hidxB) (lt_of_le_of_lt hp2 hidxlen)
      have hWin : ∀ m ∈ r.1, m.id ∈ r.2 := by
        intro m hm
        rw [hc]
        exact List.mem_append_right _ (List.mem_map_of_mem _ hm)
      have hremain' : ∀ a ∈ rest, (msgs.getD a default).id ∈ r.2 ∨ a < idx - t := by
        intro a ha
        have haidx : a < idx := hdesc_rest a ha
        by_cases hge : idx - t ≤ a
        · left
          have hmem := window_pos_mem msgs idx t a hge (le_of_lt haidx)
          rw [← h1] at hmem
          exact hWin _ hmem
        · right
          omega
      have hfresh' : ∀ p, p < idx - t → p < msgs.length →
          (msgs.getD p default).id ∉ r.2 := by
        intro p hp hplen hcontra
        rw [hc] at hcontra
        rcases List.mem_append.mp hcontra with h | h
        · exact hfresh p (by omega) hplen h
        · obtain ⟨m, hm, hmid⟩ := List.mem_map.mp h
          rw [h1] at hm
          obtain ⟨q, hq1, hq2, rfl⟩ := window_mem_pos msgs idx t m hm
          have : p = q :=
            getD_id_inj msgs hids hplen (lt_of_le_of_lt hq2 hidxlen) hmid.symm
          omega
      obtain ⟨ihfresh, ihpair⟩ := ih r.2 (idx - t) hdesc'
        (fun a ha => hbound a (List.mem_cons_of_mem _ ha)) hremain' hfresh'
      constructor
      · intro w hw m hm
        rcases List.mem_cons.mp hw with rfl | hw'
        · exact hWfresh m hm
        · intro hmem
          exact ihfresh w hw' m hm (by rw [hc]; exact List.mem_append_left _ hmem)
      · apply List.Pairwise.cons
        · intro w' hw' m₁ hm₁ m₂ hm₂ heq
          exact ihfresh w' hw' m₂ hm₂ (heq ▸ hWin m₁ hm₁)
        · exact ihpair

/-- Combined shape of every emitted window: it is the anchor message
followed by the contiguous backward segment, whose positions stay strictly
above `0` and whose time gaps from the anchor stay within `T`. -/
lemma window_shape (msgs : List Message) (M : Nat) (T : Int) (anchors : List Nat) :
    ∀ w ∈ buildContexts msgs M T anchors,
      ∃ idx t, idx ∈ anchors ∧
        w = msgs.getD idx default :: seg msgs idx 1 t ∧
        (∀ j, j < t → 1 + j < idx) ∧
        (∀ j, j < t → (msgs.getD idx default).date_unixtime
            - (msgs.getD (idx - (1 + j)) default).date_unixtime ≤ T) := by
  intro w hw
  obtain ⟨idx, c2, hidx, hw_eq⟩ := mem_recurse_aux msgs M T anchors.reverse [] w hw
  obtain ⟨t, h1, _, h3, h4⟩ :=
    contextLoop_spec msgs M T (msgs.getD idx default).date_unixtime idx M
      [msgs.getD idx default] c2 (msgs.getD idx default) 1 false
  rw [List.singleton_append] at h1
  exact ⟨idx, t, List.mem_reverse.mp hidx, hw_eq.trans h1, h3, h4⟩

/-- A window whose senders are covered by two values has at most two
distinct sender identities. -/
lemma two_senders_card {w : List Message}
    (h : ∃ s₁ s₂, ∀ m ∈ w, m.from_id = s₁ ∨ m.from_id = s₂) :
    (w.map Message.from_id).dedup.length ≤ 2 := by
  obtain ⟨s₁, s₂, hs⟩ := h
  have hsub : (w.map Message.from_id).dedup ⊆ [s₁, s₂] := by
    intro x hx
    have hx' : x ∈ w.map Message.from_id := List.mem_dedup.mp hx
    obtain ⟨m, hm, rfl⟩ := List.mem_map.mp hx'
    rcases hs m hm with h | h <;> simp [h]
  have hsp := (List.nodup_dedup (w.map Message.from_id)).subperm hsub
  simpa using hsp.length_le

/-! ### Stable sort commutes with filtering

The timestamp preorder used by `get_sorted_messages` is total and
transitive; a stable sort by it commutes with any filter. -/

instance : IsTotal Message (fun a b => a.date_unixtime ≤ b.date_unixtime) :=
  ⟨fun a b => Int.le_total a.date_unixtime b.date_unixtime⟩

instance : IsTrans Message (fun a b => a.date_unixtime ≤ b.date_unixtime) :=
  ⟨fun _ _ _ hab hbc => Int.le_trans hab hbc⟩

lemma orderedInsert_cons_of_le (m x : Message) (xs : List Message)
    (h : m.date_unixtime ≤ x.date_unixtime) :
    (x :: xs).orderedInsert (fun a b => a.date_unixtime ≤ b.date_unixtime) m
      = m :: x :: xs := by
  simp [List.orderedInsert, h]

lemma orderedInsert_cons_of_gt (m x : Message) (xs : List Message)
    (h : ¬ m.date_unixtime ≤ x.date_unixtime) :
    (x :: xs).orderedInsert (fun a b => a.date_unixtime ≤ b.date_unixtime) m
      = x :: xs.orderedInsert (fun a b => a.date_unixtime ≤ b.date_unixtime) m := by
  simp [List.orderedInsert, h]

lemma orderedInsert_eq_cons (m : Message) :
    ∀ L : List Message,
      (∀ y ∈ L, m.date_unixtime ≤ y.date_unixtime) →
      L.orderedInsert (fun a b => a.date_unixtime ≤ b.date_unixtime) m = m :: L := by
  intro L hL
  cases L with
  | nil => rfl
  | cons b l => exact orderedInsert_cons_of_le m b l (hL b (List.mem_cons_self _ _))

lemma filter_orderedInsert (p : Message → Bool) (m : Message) :
    ∀ L : List Message,
      L.Sorted (fun a b => a.date_unixtime ≤ b.date_unixtime) →
      (L.orderedInsert (fun a b => a.date_unixtime ≤ b.date_unixtime) m).filter p
        = if p m then
            (L.filter p).orderedInsert (fun a b => a.date_unixtime ≤ b.date_unixtime) m
          else L.filter p := by
  intro L
  induction L with
  | nil =>
    intro _
    by_cases hpm : p m <;> simp [List.orderedInsert, List.filter, hpm]
  | cons x xs ih =>
    intro hs
    have hx : ∀ y ∈ xs, x.date_unixtime ≤ y.date_unixtime :=
      (List.sorted_cons.mp hs).1
    have hxs : xs.Sorted (fun a b => a.date_unixtime ≤ b.date_unixtime) :=
      (List.sorted_cons.mp hs).2
    by_cases hmx : m.date_unixtime ≤ x.date_unixtime
    · rw [orderedInsert_cons_of_le m x xs hmx]
      by_cases hpm : p m
      · rw [if_pos hpm]
        have hall : ∀ y ∈ (x :: xs).filter p, m.date_unixtime ≤ y.date_unixtime := by
          intro y hy
          have hy' := List.mem_of_mem_filter hy
          rcases List.mem_cons.mp hy' with rfl | hy''
          · exact hmx
          · exact le_trans hmx (hx y hy'')
        rw [orderedInsert_eq_cons m _ hall]
        simp [List.filter_cons, hpm]
      · rw [if_neg hpm]
        simp [List.filter_cons, hpm]
    · rw [orderedInsert_cons_of_gt m x xs hmx]
      by_cases hpm : p m
      · rw [if_pos hpm]
        by_cases hpx : p x
        · rw [List.filter_cons_of_pos hpx, ih hxs, if_pos hpm,
            List.filter_cons_of_pos hpx]
          rw [orderedInsert_cons_of_gt m x (xs.filter p) hmx]
        · rw [List.filter_cons_of_neg hpx, ih hxs, if_pos hpm,
            List.filter_cons_of_neg hpx]
      · rw [if_neg hpm]
        by_cases hpx : p x
        · rw [List.filter_cons_of_pos hpx, ih hxs, if_neg hpm,
            List.filter_cons_of_pos hpx]
        · rw [List.filter_cons_of_neg hpx, ih hxs, if_neg hpm,
            List.filter_cons_of_neg hpx]

lemma filter_insertionSort (p : Message → Bool) :
    ∀ l : List Message,
      (l.insertionSort (fun a b => a.date_unixtime ≤ b.date_unixtime)).filter p
        = (l.filter p).insertionSort (fun a b => a.date_unixtime ≤ b.date_unixtime) := by
  intro l
  induction l with
  | nil => rfl
  | cons m ms ih =>
    have hsorted : (ms.insertionSort
          (fun a b => a.date_unixtime ≤ b.date_unixtime)).Sorted
        (fun a b => a.date_unixtime ≤ b.date_unixtime) :=
      List.sorted_insertionSort _ ms
    rw [List.insertionSort, filter_orderedInsert p m _ hsorted, ih, List.filter_cons]
    by_cases hpm : p m
    · rw [if_pos hpm, if_pos hpm, List.insertionSort]
    · rw [if_neg hpm, if_neg hpm]

/-! ## The claims -/

/-- **C1** (partition property): for every conversation — message list with
pairwise distinct message ids, anchor positions in ascending order and in
bounds, as the Anchor Locator produces them — the message-id sets of the
windows emitted by the Context Window Builder are pairwise disjoint; and an
anchor whose message id is already in the consumed list yields no window at
all. -/
theorem windows_pairwise_disjoint (msgs : List Message) (M : Nat) (T : Int)
    (anchors : List Nat) (hasc : anchors.Pairwise (· < ·))
    (hbound : ∀ a ∈ anchors, a < msgs.length)
    (hids : (msgs.map Message.id).Nodup) :
    (buildContexts msgs M T anchors).Pairwise
      (fun w₁ w₂ => ∀ m₁ ∈ w₁, ∀ m₂ ∈ w₂, m₁.id ≠ m₂.id) ∧
    (∀ (idx : Nat) (rest : List Nat) (consumed : List Int),
        (msgs.getD idx default).id ∈ consumed →
        recurse_aux msgs M T (idx :: rest) consumed
          = recurse_aux msgs M T rest consumed) := by
  constructor
  · have hdesc : anchors.reverse.Pairwise (fun a b => b < a) := by
      rw [List.pairwise_reverse]
      exact hasc
    exact (recurse_aux_partition msgs M T hids anchors.reverse [] msgs.length hdesc
      (fun a ha => hbound a (List.mem_reverse.mp ha))
      (fun a ha => Or.inr (hbound a (List.mem_reverse.mp ha)))
      (fun p _ _ h => List.not_mem_nil _ h)).2
  · intro idx rest consumed h
    rw [recurse_aux_cons, if_pos h]

/-- Witness for C1 at the literal scenario: the two windows
`[mC2_4, mC2_3, mC2_2]` and `[mC2_1]` have disjoint id sets, and a consumed
anchor is skipped. -/
theorem windows_pairwise_disjoint_witness :
    mC2_4.id ≠ mC2_1.id ∧
    recurse_aux chatC2.messages 10 3600 ([0] : List Nat) [mC2_1.id]
      = recurse_aux chatC2.messages 10 3600 [] [mC2_1.id] := by
  have h := windows_pairwise_disjoint chatC2.messages 10 3600 [0, 3]
    (by decide) (by decide) (by decide)
  constructor
  · have hws : buildContexts chatC2.messages 10 3600 [0, 3]
        = [[mC2_4, mC2_3, mC2_2], [mC2_1]] := by decide
    have hp := h.1
    rw [hws] at hp
    exact (List.pairwise_cons.mp hp).1 [mC2_1] (by simp) mC2_4 (by simp) mC2_1 (by simp)
  · exact h.2 0 [] [mC2_1.id] (by decide)

/-- **C2** (counterexample): on the literal scenario with M = 10 and
T = 3600 the pipeline does not output pair1 = ("how are youhello", "good")
first — `main` reverses the built windows into chronological order before
merging. -/
theorem scenario_order_counterexample :
    pipelineMT 10 3600 chatC2
      ≠ [("how are youhello", "good"), ("", "hi")] := by
  decide

/-- **C2** (amended): the pipeline on the literal scenario produces exactly
the two expected pairs but in the order pair2 = ("", "hi") first, then
pair1 = ("how are youhello", "good"); the output is the same under the
source constants M = 10, T = 43200. -/
theorem scenario_pipeline_output :
    pipelineMT 10 3600 chatC2 = [("", "hi"), ("how are youhello", "good")] ∧
    main_pipeline chatC2 = [("", "hi"), ("how are youhello", "good")] := by
  constructor <;> decide

/-- **C3** (decay bound): every non-anchor member of an emitted window is
within `T` seconds of the window's head — the anchor, whose timestamp is
the fixed reference taken when the window was started; and a candidate
whose gap from the anchor exceeds `T` terminates the backward scan with the
window unchanged. -/
theorem decay_bound (msgs : List Message) (M : Nat) (T : Int) (anchors : List Nat) :
    (∀ w ∈ buildContexts msgs M T anchors, ∀ m ∈ w.tail,
        (w.headD default).date_unixtime - m.date_unixtime ≤ T) ∧
    (∀ (aTime : Int) (idx fuel : Nat) (context : List Message) (consumed : List Int)
        (cur : Message) (i : Nat) (turned : Bool),
        context.length < M → ¬ idx ≤ i →
        T < aTime - (msgs.getD (idx - i) default).date_unixtime →
        contextLoop msgs M T aTime idx (fuel + 1) context consumed cur i turned
          = (context, consumed)) := by
  constructor
  · intro w hw m hm
    obtain ⟨idx, t, _, hw_eq, h3, h4⟩ := window_shape msgs M T anchors w hw
    rw [hw_eq, List.tail_cons] at hm
    rw [hw_eq, List.headD_cons]
    obtain ⟨j, hj, rfl⟩ := mem_seg.mp hm
    exact h4 j hj
  · intro aTime idx fuel context consumed cur i turned h1 h2 h3
    rw [contextLoop_succ, if_pos h1, if_neg h2, if_pos h3]

/-- Witness for C3: in the scenario window `[mC2_4, mC2_3, mC2_2]` the gap
between anchor and first context message is within 3600 s, and a scan
facing a candidate staler than `T` (anchor time 5000, candidate mC2_3 at
1003) stops with the window unchanged. -/
theorem decay_bound_witness :
    (([mC2_4, mC2_3, mC2_2] : List Message).headD default).date_unixtime
        - (([mC2_4, mC2_3, mC2_2] : List Message).tail.getD 0 default).date_unixtime
      ≤ 3600 ∧
    contextLoop chatC2.messages 10 3600 5000 3 1 [] [] default 1 false = ([], []) := by
  constructor
  · exact (decay_bound chatC2.messages 10 3600 [0, 3]).1 [mC2_4, mC2_3, mC2_2]
      (by decide) _ (by decide)
  · exact (decay_bound chatC2.messages 10 3600 [0, 3]).2 5000 3 0 [] [] default 1 false
      (by decide) (by decide) (by decide)

/-- **C4** (turn-cap): every emitted window contains messages of at most
two distinct sender identities: the list of its senders deduplicates to
length at most 2, and all senders are covered by two values. -/
theorem turn_cap (msgs : List Message) (M : Nat) (T : Int) (anchors : List Nat) :
    ∀ w ∈ buildContexts msgs M T anchors,
      (w.map Message.from_id).dedup.length ≤ 2 ∧
      ∃ s₁ s₂, ∀ m ∈ w, m.from_id = s₁ ∨ m.from_id = s₂ := by
  intro w hw
  obtain ⟨idx, c2, _, hw_eq⟩ := mem_recurse_aux msgs M T anchors.reverse [] w hw
  have h2 : ∃ s₁ s₂, ∀ m ∈ w, m.from_id = s₁ ∨ m.from_id = s₂ := by
    rw [hw_eq]
    apply contextLoop_two_senders
    · intro _ m hm
      rw [List.mem_singleton.mp hm]
    · intro h
      exact absurd h (by simp)
  exact ⟨two_senders_card h2, h2⟩

/-- Witness for C4 at the scenario's three-message window. -/
theorem turn_cap_witness :
    (([mC2_4, mC2_3, mC2_2] : List Message).map Message.from_id).dedup.length ≤ 2 :=
  (turn_cap chatC2.messages 10 3600 [0, 3] [mC2_4, mC2_3, mC2_2] (by decide)).1

/-- **C5** (bounded size): for a positive size cap `M` every emitted window
has length at most `M`; the source constant is `MAX_CONTEXT_MESSAGE = 10`. -/
theorem bounded_size (msgs : List Message) (M : Nat) (T : Int) (anchors : List Nat)
    (hM : 0 < M) :
    (∀ w ∈ buildContexts msgs M T anchors, w.length ≤ M) ∧
    MAX_CONTEXT_MESSAGE = 10 := by
  refine ⟨?_, rfl⟩
  intro w hw
  obtain ⟨idx, c2, _, hw_eq⟩ := mem_recurse_aux msgs M T anchors.reverse [] w hw
  rw [hw_eq]
  have hlen := contextLoop_length msgs M T (msgs.getD idx default).date_unixtime idx M
    [msgs.getD idx default] c2 (msgs.getD idx default) 1 false
  exact le_trans hlen (le_of_eq (by simp [Nat.max_eq_right hM]))

/-- Witness for C5 at the scenario's larger window. -/
theorem bounded_size_witness :
    ([mC2_4, mC2_3, mC2_2] : List Message).length ≤ 10 :=
  (bounded_size chatC2.messages 10 3600 [0, 3] (by decide)).1
    [mC2_4, mC2_3, mC2_2] (by decide)

/-- **C6** (pipeline-order equivalence): filtering non-text messages and
then stably sorting by timestamp yields the same message sequence as
sorting first and then filtering (the code's order), for every input. -/
theorem filter_sort_commute (chat : Chat) :
    get_text_messages { chat with messages := get_sorted_messages chat }
      = get_sorted_messages { chat with messages := get_text_messages chat } := by
  simp only [get_text_messages, get_sorted_messages]
  exact filter_insertionSort _ chat.messages

/-- Witness for C6 on a chat that is both unsorted and contains a photo
message. -/
theorem filter_sort_commute_witness :
    get_text_messages { chatC6 with messages := get_sorted_messages chatC6 }
      = get_sorted_messages { chatC6 with messages := get_text_messages chatC6 } :=
  filter_sort_commute chatC6

/-- **C7** (anchor locator contract): `get_index_of_model_chat` returns the
ascending list of exactly those positions whose message sender id equals
the derived target tag `"user" + str(chat.id)`.  It is a total pure
function of the chat; the conversation id is a required field of a
validated `Chat`, so the absent-id error case cannot arise and the locator
never fails. -/
theorem anchor_locator_contract (chat : Chat) :
    List.Sorted (· < ·) (get_index_of_model_chat chat) ∧
    ∀ i : Nat, i ∈ get_index_of_model_chat chat ↔
      (i < chat.messages.length ∧
        (chat.messages.getD i default).from_id = some ("user" ++ toString chat.id)) := by
  constructor
  · exact List.Pairwise.filter _ (List.pairwise_lt_range _)
  · intro i
    constructor
    · intro h
      have h' := List.mem_filter.mp h
      exact ⟨List.mem_range.mp h'.1, of_decide_eq_true h'.2⟩
    · intro h
      exact List.mem_filter.mpr ⟨List.mem_range.mpr h.1, decide_eq_true h.2⟩

/-- Witness for C7: position 3 of the scenario chat is an anchor position
exactly because its sender is "user42". -/
theorem anchor_locator_contract_witness :
    3 ∈ get_index_of_model_chat chatC2 ↔
      (3 < chatC2.messages.length ∧
        (chatC2.messages.getD 3 default).from_id
          = some ("user" ++ toString chatC2.id)) :=
  (anchor_locator_contract chatC2).2 3

/-- **C8** (third-speaker non-consumption): when the backward scan faces a
candidate whose sender differs from the current speaker after the turn
switch already happened, it finalizes the window exactly as-is — neither
the window nor the consumed id list changes — so a candidate id that was
not yet consumed stays unconsumed and remains eligible for later-processed
anchors. -/
theorem third_speaker_halt (msgs : List Message) (M : Nat) (T aTime : Int)
    (idx fuel : Nat) (context : List Message) (consumed : List Int) (cur : Message)
    (i : Nat) (hM : context.length < M) (hi : ¬ idx ≤ i)
    (hT : ¬ T < aTime - (msgs.getD (idx - i) default).date_unixtime)
    (hdiff : ¬ (msgs.getD (idx - i) default).from_id = cur.from_id) :
    contextLoop msgs M T aTime idx (fuel + 1) context consumed cur i true
      = (context, consumed) ∧
    ((msgs.getD (idx - i) default).id ∉ consumed →
      (msgs.getD (idx - i) default).id ∉
        (contextLoop msgs M T aTime idx (fuel + 1) context consumed cur i true).2) := by
  have h : contextLoop msgs M T aTime idx (fuel + 1) context consumed cur i true
      = (context, consumed) := by
    rw [contextLoop_succ, if_pos hM, if_neg hi, if_neg hT, if_neg hdiff, if_pos rfl]
  refine ⟨h, fun hn => ?_⟩
  rw [h]
  exact hn

/-- Witness for C8 in the three-speaker conversation `msgsC8`: the scan of
anchor position 3 that already switched to "peer" halts at the "third"
sender of position 1 without consuming its id. -/
theorem third_speaker_halt_witness :
    contextLoop msgsC8 10 3600 1003 3 8
        [msgsC8.getD 3 default, msgsC8.getD 2 default] [3, 2]
        (msgsC8.getD 2 default) 2 true
      = ([msgsC8.getD 3 default, msgsC8.getD 2 default], [3, 2]) ∧
    (msgsC8.getD 1 default).id ∉
      (contextLoop msgsC8 10 3600 1003 3 8
        [msgsC8.getD 3 default, msgsC8.getD 2 default] [3, 2]
        (msgsC8.getD 2 default) 2 true).2 := by
  have h := third_speaker_halt msgsC8 10 3600 1003 3 7
    [msgsC8.getD 3 default, msgsC8.getD 2 default] [3, 2]
    (msgsC8.getD 2 default) 2 (by decide) (by decide) (by decide) (by decide)
  exact ⟨h.1, h.2 (by decide)⟩

/-- **C9** (determinism): the pipeline is a pure function of the
conversation — two runs over the same data (same id, same message list,
same `M` and `T`) produce identical output pair sequences. -/
theorem pipeline_deterministic (M : Nat) (T : Int) (c₁ c₂ : Chat)
    (hid : c₁.id = c₂.id) (hmsgs : c₁.messages = c₂.messages) :
    pipelineMT M T c₁ = pipelineMT M T c₂ := by
  have h : c₁ = c₂ := by
    cases c₁
    cases c₂
    simp_all
  rw [h]

/-- Witness for C9: two runs over the literal scenario agree. -/
theorem pipeline_deterministic_witness :
    pipelineMT 10 3600 chatC2 = pipelineMT 10 3600 chatC2 :=
  pipeline_deterministic 10 3600 chatC2 chatC2 rfl rfl

/-- **C10** (first-message exclusion): every emitted window is headed by
its anchor message, every non-anchor member sits at a position strictly
between `0` and the anchor position — the message at position 0 is never
absorbed as backward context — and an anchor at position 0 yields the
singleton window holding only the position-0 message. -/
theorem first_message_excluded (msgs : List Message) (M : Nat) (T : Int)
    (anchors : List Nat) :
    ∀ w ∈ buildContexts msgs M T anchors,
      ∃ idx, idx ∈ anchors ∧ w.headD default = msgs.getD idx default ∧
        (∀ m ∈ w.tail, ∃ p, 0 < p ∧ p < idx ∧ m = msgs.getD p default) ∧
        (idx = 0 → w = [msgs.getD 0 default]) := by
  intro w hw
  obtain ⟨idx, t, hidx, hw_eq, h3, _⟩ := window_shape msgs M T anchors w hw
  refine ⟨idx, hidx, ?_, ?_, ?_⟩
  · rw [hw_eq, List.headD_cons]
  · intro m hm
    rw [hw_eq, List.tail_cons] at hm
    obtain ⟨j, hj, rfl⟩ := mem_seg.mp hm
    have := h3 j hj
    exact ⟨idx - (1 + j), by omega, by omega, rfl⟩
  · intro h0
    have ht : t = 0 := by
      by_contra hne
      have := h3 0 (by omega)
      omega
    rw [hw_eq, ht, h0]
    rfl

/-- Witness for C10: the scenario window of the anchor at position 0 is the
singleton holding exactly the position-0 message. -/
theorem first_message_excluded_witness :
    ([mC2_1] : List Message) = [chatC2.messages.getD 0 default] := by
  obtain ⟨idx, hidx, hhead, _, hzero⟩ :=
    first_message_excluded chatC2.messages 10 3600 [0, 3] [mC2_1] (by decide)
  simp only [List.mem_cons, List.not_mem_nil, or_false] at hidx
  rcases hidx with rfl | rfl
  · exact hzero rfl
  · exact absurd hhead (by decide)

end Datasetify
